import Mathlib

/- Formal model of augustoterrera/SubirGastos (src/app.py): a Streamlit form
   that records construction-project expenses ("gastos") in a PostgreSQL
   database accessed through a psycopg2 SimpleConnectionPool.

   Modelling conventions:
   - the DSN helper add_keepalives_to_dsn and the urllib primitives it calls
     (urlparse/parse_qs/urlencode/urlunparse) are embedded over List Char;
   - percent-encoding is modelled byte-for-byte for ASCII characters; a
     non-ASCII character is passed through unchanged (Python encodes it as
     several UTF-8 percent escapes; none of the claims depends on which
     escape sequence a non-ASCII character produces);
   - the connection pool is modelled as the list of connections that
     successive getconn() calls hand out, and a run of the pooled_conn()
     context manager is a pure function from that supply and the outcome of
     the caller's body to an outcome plus a borrow/return event log;
   - Decimal arithmetic (Decimal(str(x)).quantize(Decimal("0.01"))) is
     modelled on ℚ with the default ROUND_HALF_EVEN rounding;
   - Streamlit session state is an explicit record, and each handler is a
     function from session state (plus the database's behaviour, an
     Except value standing for a raised exception) to session state. -/

/-! ## Python string helpers -/

/-- Python str.strip(): remove whitespace from both ends of a string. -/
def pyStrip (s : String) : String :=
  ⟨((s.data.dropWhile Char.isWhitespace).reverse.dropWhile Char.isWhitespace).reverse⟩

/-! ## add_keepalives_to_dsn (src/app.py lines 20-36) and its urllib pieces -/

/-- The literal "://" whose presence add_keepalives_to_dsn tests for. -/
def schemeSep : List Char := [':', '/', '/']

/-- leadsWith pat s is true when pat is an initial segment of s. -/
def leadsWith : List Char → List Char → Bool
  | [], _ => true
  | _ :: _, [] => false
  | p :: ps, c :: cs => p == c && leadsWith ps cs

/-- hasSub pat s models the Python substring test (pat in s). -/
def hasSub (pat : List Char) : List Char → Bool
  | [] => pat.isEmpty
  | c :: cs => leadsWith pat (c :: cs) || hasSub pat cs

/-- Split a string at the first occurrence of sep: the part before it and,
when sep occurs, the part after it. Models str.split(sep, 1) as used by
urlsplit for the fragment and the query. -/
def splitAtFirst (sep : Char) : List Char → List Char × Option (List Char)
  | [] => ([], none)
  | c :: cs =>
    if c == sep then ([], some cs)
    else
      let r := splitAtFirst sep cs
      (c :: r.1, r.2)

/-- Split on every occurrence of sep, models str.split(sep). -/
def splitSep (sep : Char) : List Char → List (List Char)
  | [] => [[]]
  | c :: cs =>
    let r := splitSep sep cs
    if c == sep then [] :: r
    else
      match r with
      | [] => [[c]]
      | h :: t => (c :: h) :: t

/-- Hex digit character for a nibble, uppercase as produced by Python quote. -/
def hexDigitChar (n : Nat) : Char :=
  if n < 10 then Char.ofNat (48 + n) else Char.ofNat (55 + n)

/-- Numeric value of a hex digit character, if it is one. -/
def hexVal (c : Char) : Option Nat :=
  let n := c.toNat
  if 48 ≤ n && n ≤ 57 then some (n - 48)
  else if 65 ≤ n && n ≤ 70 then some (n - 55)
  else if 97 ≤ n && n ≤ 102 then some (n - 87)
  else none

/-- Characters Python's quote never escapes: ASCII letters, digits, and
the marks underscore, dot, hyphen, tilde. Non-ASCII characters are passed
through in this model (see the header comment). -/
def isSafeChar (c : Char) : Bool :=
  (c.isAlpha || c.isDigit) || c == '_' || c == '.' || c == '-' || c == '~' ||
    decide (128 ≤ c.toNat)

/-- Encoding of one character under quote_plus. -/
def encChar (c : Char) : List Char :=
  if isSafeChar c then [c]
  else if c == ' ' then ['+']
  else ['%', hexDigitChar (c.toNat / 16), hexDigitChar (c.toNat % 16)]

/-- urllib.parse.quote_plus on a decoded string. -/
def quote_plus (s : List Char) : List Char :=
  (s.map encChar).flatten

/-- The '+' to space replacement unquote_plus performs before unquoting. -/
def plusToSpace (c : Char) : Char := if c == '+' then ' ' else c

/-- Decode the pieces that followed a '%' (CPython's unquote splits the
string on '%'): a piece starting with two hex digits becomes the escaped
character plus the remainder, otherwise the '%' is kept literally. -/
def unquoteBits : List (List Char) → List Char
  | [] => []
  | bit :: rest =>
    (match bit with
     | a :: b :: tl =>
       match hexVal a, hexVal b with
       | some x, some y => Char.ofNat (16 * x + y) :: tl
       | _, _ => '%' :: bit
     | _ => '%' :: bit) ++ unquoteBits rest

/-- Percent-decoding of an already plus-replaced string: split on '%',
keep the first piece, decode each later piece. -/
def unquoteRaw (t : List Char) : List Char :=
  match splitSep '%' t with
  | [] => []
  | first :: rest => first ++ unquoteBits rest

/-- urllib.parse.unquote_plus: replace '+' by a space, then a percent
escape followed by two hex digits becomes the escaped character; anything
else is kept as is. -/
def unquote_plus (s : List Char) : List Char :=
  unquoteRaw (s.map plusToSpace)

/-- A parsed query string: keys in first-occurrence order, each with the
list of its decoded values, as returned by urllib.parse.parse_qs. -/
abbrev QDict := List (List Char × List (List Char))

/-- Parse one chunk of a query string into a decoded name/value pair;
keep_blank_values=True keeps a chunk without '=' as (name, ""). -/
def parseChunk (chunk : List Char) : List Char × List Char :=
  match splitAtFirst '=' chunk with
  | (name, some value) => (unquote_plus name, unquote_plus value)
  | (name, none) => (unquote_plus name, [])

/-- urllib.parse.parse_qsl with keep_blank_values=True: split the query on
'&', drop empty chunks, decode each chunk. -/
def parse_qsl (query : List Char) : List (List Char × List Char) :=
  ((splitSep '&' query).filter (fun c => !c.isEmpty)).map parseChunk

/-- Record one name/value pair in the dictionary: append the value to an
existing key, or append the new key at the end (Python dict insertion
order). -/
def qsAdd (d : QDict) (k v : List Char) : QDict :=
  match d with
  | [] => [(k, [v])]
  | (k0, vs) :: rest =>
    if k0 == k then (k0, vs ++ [v]) :: rest else (k0, vs) :: qsAdd rest k v

/-- urllib.parse.parse_qs with keep_blank_values=True. -/
def parse_qs (query : List Char) : QDict :=
  (parse_qsl query).foldl (fun d p => qsAdd d p.1 p.2) []

/-- Look a key up in a parsed query dictionary. -/
def lookupQ (d : QDict) (k : List Char) : Option (List (List Char)) :=
  match d with
  | [] => none
  | (k0, vs) :: rest => if k0 == k then some vs else lookupQ rest k

/-- dict.setdefault: keep an existing entry, otherwise append the key with
the default value at the end. -/
def setdefault (d : QDict) (k : List Char) (v : List (List Char)) : QDict :=
  match d with
  | [] => [(k, v)]
  | (k0, vs) :: rest =>
    if k0 == k then (k0, vs) :: rest else (k0, vs) :: setdefault rest k v

/-- v[-1]: the last of a parameter's values (parse_qs never produces an
empty value list, so the default is never consulted). -/
def lastVal (vs : List (List Char)) : List Char := vs.getLastD []

/-- Encoding of one (key, values) entry as key=value with the last value,
as the comprehension \x7bk: v[-1] for k, v in q.items()\x7d feeds urlencode. -/
def encPair (kv : List Char × List (List Char)) : List Char :=
  quote_plus kv.1 ++ '=' :: quote_plus (lastVal kv.2)

/-- sep.join(chunks): the chunks separated by sep. -/
def sepJoin (sep : Char) : List (List Char) → List Char
  | [] => []
  | [c] => c
  | c :: c2 :: rest => c ++ sep :: sepJoin sep (c2 :: rest)

/-- urllib.parse.urlencode over the last-value dictionary: the encoded
key=value chunks joined with '&'. -/
def urlencode (d : QDict) : List Char :=
  sepJoin '&' (d.map encPair)

/-- The fragment part urlunparse appends: '#' plus the fragment when a
nonempty fragment is present, nothing otherwise. -/
def fragPart : Option (List Char) → List Char
  | some f => if f.isEmpty then [] else '#' :: f
  | none => []

/-- urlunparse restricted to what the helper changes: the original prefix
(scheme, netloc, path, params) is kept verbatim, '?' plus the query is
appended when the query is nonempty, then the fragment part. -/
def urlunparse_q (base query : List Char) (frag : Option (List Char)) : List Char :=
  base ++ (if query.isEmpty then [] else '?' :: query) ++ fragPart frag

/-- The five keepalive defaults, in the order the source applies them. -/
def setDefaults (q : QDict) : QDict :=
  setdefault
    (setdefault
      (setdefault
        (setdefault
          (setdefault q "keepalives".toList [['1']])
          "keepalives_idle".toList ["30".toList])
        "keepalives_interval".toList ["10".toList])
      "keepalives_count".toList [['5']])
    "connect_timeout".toList [['5']]

/-- The enrichment branch of add_keepalives_to_dsn: urlparse (fragment
first, then query), parse_qs, the five setdefault calls, urlencode of the
last-value dictionary, urlunparse. -/
def enrich (dsn : List Char) : List Char :=
  let pf := splitAtFirst '#' dsn
  let pq := splitAtFirst '?' pf.1
  let q5 := setDefaults (parse_qs (pq.2.getD []))
  urlunparse_q pq.1 (urlencode q5) pf.2

/-- add_keepalives_to_dsn (src/app.py lines 20-36): a DSN without "://" is
returned unchanged, otherwise keepalive parameters are added to its query
string with setdefault. -/
def add_keepalives_to_dsn (dsn : List Char) : List Char :=
  if dsn.isEmpty || !hasSub schemeSep dsn then dsn else enrich dsn

/-- The query component of a DSN, as urlparse extracts it: the part after
the first '?' of the fragment-free prefix. -/
def queryOf (dsn : List Char) : List Char :=
  ((splitAtFirst '?' (splitAtFirst '#' dsn).1).2).getD []

/-- The prefix urlunparse keeps verbatim: everything before the first '?'
of the fragment-free part. -/
def baseOf (dsn : List Char) : List Char :=
  (splitAtFirst '?' (splitAtFirst '#' dsn).1).1

/-- The fragment as urlparse extracts it. -/
def fragOf (dsn : List Char) : Option (List Char) :=
  (splitAtFirst '#' dsn).2

/-- The query string the enrichment branch produces. -/
def newQueryOf (dsn : List Char) : List Char :=
  urlencode (setDefaults (parse_qs (queryOf dsn)))

/-- The fragment that parsing the reassembled URL recovers: urlunparse
drops an empty fragment, so parsing its output sees none in that case. -/
def normFrag : Option (List Char) → Option (List Char)
  | some f => if f.isEmpty then none else some f
  | none => none

/-! ## Configuration (src/app.py lines 41-49) -/

/-- DATABASE_URL = st.secrets.get("DATABASE_URL", os.getenv("DATABASE_URL", "")):
the secrets value when present, else the environment value, else "". -/
def DATABASE_URL (secretsVal envVal : Option (List Char)) : List Char :=
  secretsVal.getD (envVal.getD [])

/-- ENRICHED_DSN = add_keepalives_to_dsn(DATABASE_URL). -/
def ENRICHED_DSN (secretsVal envVal : Option (List Char)) : List Char :=
  add_keepalives_to_dsn (DATABASE_URL secretsVal envVal)

/-! ## Connection pool model (src/app.py lines 44-87) -/

/-- A pooled connection: an identifier, the conn.closed flag, and whether a
round trip (cursor.execute("SELECT 1")) succeeds on it. -/
structure Conn where
  id : Nat
  closed : Bool
  pingOk : Bool
deriving DecidableEq, Repr

/-- The _ping helper (lines 51-57): SELECT 1 on the connection, True on
success and False when any exception is raised. -/
def ping (c : Conn) : Bool := c.pingOk

/-- The acquisition test of pooled_conn: conn.closed or not _ping(conn). -/
def probeFail (c : Conn) : Bool := c.closed || !ping c

/-- The message of the RuntimeError raised when the second probe fails. -/
def noHealthyMsg : String := "No se pudo obtener una conexión válida del pool."

/-- The message of the RuntimeError raised by get_pool without a DSN. -/
def noDsnMsg : String := "DATABASE_URL no configurada en secrets o variables de entorno."

/-- Message standing for psycopg2's PoolError when getconn has no
connection to hand out (supply exhausted). -/
def poolExhaustedMsg : String := "connection pool exhausted"

/-- get_pool (lines 44-49): raises when the enriched DSN is empty,
otherwise returns the pool, modelled as the list of connections that
successive getconn() calls will hand out. -/
def get_pool (enrichedDsn : List Char) (conns : List Conn) : Except String (List Conn) :=
  if enrichedDsn.isEmpty then .error noDsnMsg else .ok conns

/-- One borrow or return observed at the pool boundary. putconn's close
flag records whether the connection was sent back for closure (close=True)
or for recycling. -/
inductive PoolEvent where
  | borrowed (c : Conn)
  | returned (c : Conn) (close : Bool)
deriving DecidableEq, Repr

/-- How a pooled_conn() run ends: the body ran on a yielded connection and
returned or raised, the second probe failed (RuntimeError "no healthy
connection"), or the pool itself was unavailable (get_pool raised, or
getconn had nothing left). -/
inductive RunOutcome where
  | success (c : Conn)
  | bodyError (c : Conn)
  | noHealthy
  | poolError (msg : String)
deriving DecidableEq, Repr

/-- A pooled_conn() run: its outcome and the borrow/return event log. -/
structure RunResult where
  outcome : RunOutcome
  events : List PoolEvent
deriving DecidableEq, Repr

/-- The connection the context manager yielded to the caller, if any. -/
def yieldedConn : RunOutcome → Option Conn
  | .success c => some c
  | .bodyError c => some c
  | .noHealthy => none
  | .poolError _ => none

/-- One run of the pooled_conn() context manager (lines 59-87) against a
pool handing out the connections of supply in order. bodyOk tells whether
the caller's body returns normally or raises.

  - first getconn; if the probe fails, putconn(conn, close=True) and a
    second getconn; if the second probe also fails, RuntimeError, and the
    finally clause putconn(conn) returns that second connection;
  - on a yielded connection the finally clause putconn(conn) runs whether
    the body returned or raised;
  - if the second getconn itself raises (empty supply), the first
    connection was already returned closed and putconn in the finally
    clause raises for it and is swallowed, so no further event. -/
def pooled_conn (p : Except String (List Conn)) (bodyOk : Bool) : RunResult :=
  match p with
  | .error m => ⟨.poolError m, []⟩
  | .ok [] => ⟨.poolError poolExhaustedMsg, []⟩
  | .ok (c1 :: rest) =>
    if probeFail c1 then
      match rest with
      | [] => ⟨.poolError poolExhaustedMsg,
               [.borrowed c1, .returned c1 true]⟩
      | c2 :: _ =>
        if probeFail c2 then
          ⟨.noHealthy,
           [.borrowed c1, .returned c1 true, .borrowed c2, .returned c2 false]⟩
        else
          ⟨if bodyOk then .success c2 else .bodyError c2,
           [.borrowed c1, .returned c1 true, .borrowed c2, .returned c2 false]⟩
    else
      ⟨if bodyOk then .success c1 else .bodyError c1,
       [.borrowed c1, .returned c1 false]⟩

/-- Connections handed out by getconn during a run, in order. -/
def borrowedConns (evs : List PoolEvent) : List Conn :=
  evs.filterMap fun e =>
    match e with
    | .borrowed c => some c
    | .returned _ _ => none

/-- Connections given back by putconn during a run, in order. -/
def returnedConns (evs : List PoolEvent) : List Conn :=
  evs.filterMap fun e =>
    match e with
    | .borrowed _ => none
    | .returned c _ => some c

/-! ## Decimal model (src/app.py lines 233-237) -/

/-- Round to the nearest integer, ties to the even integer: Decimal's
default ROUND_HALF_EVEN, used by quantize. -/
def roundHalfEven (x : ℚ) : ℤ :=
  if x - (⌊x⌋ : ℚ) < 1/2 then ⌊x⌋
  else if 1/2 < x - (⌊x⌋ : ℚ) then ⌊x⌋ + 1
  else if ⌊x⌋ % 2 = 0 then ⌊x⌋ else ⌊x⌋ + 1

/-- Decimal(str(monto_float)).quantize(Decimal("0.01")): the exact decimal
value of the text representation, rounded to two decimal places. -/
def quantize2 (q : ℚ) : ℚ := ((roundHalfEven (q * 100) : ℤ) : ℚ) / 100

/-! ## Session state and form model (src/app.py lines 139-276) -/

/-- The validated expense data stored in st.session_state.datos_gasto. -/
structure DatosGasto where
  fecha : Int
  concepto : String
  monto : ℚ
  persona : String
  comprobante_numero : String
  obra_nombre : String
  proveedor : String
  metodo_pago : String
deriving DecidableEq, Repr

/-- The session-state keys the handlers mutate. -/
structure SessionState where
  db_connected : Bool
  db_error : Option String
  enviando : Bool
  datos_gasto : Option DatosGasto
  mostrar_confirmacion : Bool
  flash_ok : Option String
deriving DecidableEq, Repr

/-- One row of the gastos table, as the INSERT statement writes it. -/
structure GastoRow where
  fecha : Int
  concepto : String
  monto : ℚ
  comprobante : String
  obra : String
  persona : String
  proveedor : String
  metodo_pago : String
deriving DecidableEq, Repr

/-- The raw form fields at submit time. monto is the exact decimal value of
str(monto_float), the text representation of the number_input value. -/
structure GastoForm where
  fecha : Int
  concepto : String
  monto : ℚ
  proveedor : String
  persona : String
  metodo_pago : String
  comprobante_numero : String
  obra_nombre : String
deriving DecidableEq, Repr

/-- The placeholder heading both select boxes. -/
def PLACEHOLDER : String := "— Seleccionar —"

def MSG_MONTO : String := "⚠️ El monto debe ser mayor a 0."
def MSG_OBRA : String := "⚠️ Debe seleccionar una obra."
def MSG_COMPROBANTE : String := "⚠️ Ingresá el número de comprobante (obligatorio)."
def MSG_CONCEPTO : String := "⚠️ Ingresá un concepto."
def MSG_SIN_CONEXION : String := "⚠️ No hay conexión a la base de datos."

/-- The inline error messages the submit handler shows, in source order
(lines 246-264): non-positive amount, placeholder obra, empty voucher,
empty concept, no database connection. -/
def errores_de (s : SessionState) (f : GastoForm) : List String :=
  (if quantize2 f.monto ≤ 0 then [MSG_MONTO] else []) ++
  (if f.obra_nombre = PLACEHOLDER then [MSG_OBRA] else []) ++
  (if pyStrip f.comprobante_numero = "" then [MSG_COMPROBANTE] else []) ++
  (if pyStrip f.concepto = "" then [MSG_CONCEPTO] else []) ++
  (if !s.db_connected then [MSG_SIN_CONEXION] else [])

/-- Result of the submit handler: the inline errors, and the validated
data when campos_validos (datos_gasto is set and the confirmation step
opens only in that case; insertar_gasto is reachable only from there). -/
structure SubmitResult where
  errores : List String
  datos : Option DatosGasto
deriving DecidableEq, Repr

/-- The submit branch (lines 232-276): convert the amount through its text
representation, strip the text fields, validate, and on success store the
expense data for the confirmation step. -/
def procesar_submit (s : SessionState) (f : GastoForm) : SubmitResult :=
  if (errores_de s f).isEmpty then
    { errores := []
      datos := some
        { fecha := f.fecha
          concepto := pyStrip f.concepto
          monto := quantize2 f.monto
          persona := pyStrip f.persona
          comprobante_numero := pyStrip f.comprobante_numero
          obra_nombre := f.obra_nombre
          proveedor := pyStrip f.proveedor
          metodo_pago := f.metodo_pago } }
  else { errores := errores_de s f, datos := none }

/-! ## Storage helpers (src/app.py lines 92-122) -/

/-- The ORDER BY nombre read of cargar_obras: the obras table's nombre
column sorted alphabetically (no DISTINCT in the query, duplicates kept). -/
def obras_query (table : List String) : List String :=
  table.insertionSort (· ≤ ·)

/-- cargar_obras (lines 92-102), body without the cache: run the query; on
any exception record db_error and clear db_connected, returning []. The db
argument is the backend's behaviour: the table on success, or the raised
exception's message. -/
def cargar_obras (db : Except String (List String)) (s : SessionState) :
    List String × SessionState :=
  match db with
  | .ok table => (obras_query table, s)
  | .error e =>
    ([], { s with db_error := some ("Error cargando obras: " ++ e)
                  db_connected := false })

/-- The @st.cache_data(ttl=60) entry for cargar_obras: the cached list and
the time it was stored, in seconds. -/
structure ObrasCache where
  entry : Option (List String × Nat)
deriving DecidableEq, Repr

/-- Cache ttl of cargar_obras, seconds. -/
def CACHE_TTL : Nat := 60

/-- cargar_obras behind @st.cache_data(ttl=60): a stored value younger
than 60 seconds is returned without touching storage; otherwise the body
runs and its result is cached at the current time. The Bool records
whether a storage query was issued. -/
def cargar_obras_cached (db : Except String (List String)) (s : SessionState)
    (c : ObrasCache) (now : Nat) :
    List String × SessionState × ObrasCache × Bool :=
  match c.entry with
  | some (v, t0) =>
    if now - t0 < CACHE_TTL then (v, s, c, false)
    else
      let r := cargar_obras db s
      (r.1, r.2, ⟨some (r.1, now)⟩, true)
  | none =>
    let r := cargar_obras db s
    (r.1, r.2, ⟨some (r.1, now)⟩, true)

/-- insertar_gasto (lines 104-122): strip the voucher, insert one row, and
commit, returning True; on any exception record db_error, clear
db_connected and return False. The Option GastoRow is the row written to
storage, if any. -/
def insertar_gasto (db : Except String Unit) (s : SessionState) (d : DatosGasto) :
    Bool × SessionState × Option GastoRow :=
  match db with
  | .ok _ =>
    (true, s, some
      { fecha := d.fecha
        concepto := d.concepto
        monto := d.monto
        comprobante := pyStrip d.comprobante_numero
        obra := d.obra_nombre
        persona := d.persona
        proveedor := d.proveedor
        metodo_pago := d.metodo_pago })
  | .error e =>
    (false, { s with db_error := some ("Error insertando gasto: " ++ e)
                     db_connected := false }, none)

/-! ## Confirm handler (src/app.py lines 292-326 and 347-376) -/

/-- One activation of the confirm control, in the st.dialog overlay or the
full-page fallback (both share this logic): the button is disabled while
enviando is set and the handler re-checks the flag, so an activation during
an in-flight save does nothing; otherwise enviando is set, insertar_gasto
runs exactly once, enviando is cleared, and on success the flash message is
set and the pending data cleared. The Nat counts insertar_gasto calls. -/
def confirmar_click (s : SessionState) (d : DatosGasto) (db : Except String Unit) :
    Nat × SessionState :=
  if s.enviando then (0, s)
  else
    let r := insertar_gasto db { s with enviando := true } d
    let s2 := { r.2.1 with enviando := false }
    if r.1 then
      (1, { s2 with flash_ok := some "¡Gasto guardado con éxito!"
                    datos_gasto := none
                    mostrar_confirmacion := false })
    else (1, s2)

/-! ## Lemmas about the string splitters -/

theorem splitAtFirst_not_mem {sep : Char} {l : List Char} (h : sep ∉ l) :
    splitAtFirst sep l = (l, none) := by
  induction l with
  | nil => rfl
  | cons c cs ih =>
    have hc : ¬(c == sep) = true := by
      simp only [beq_iff_eq]
      rintro rfl
      exact h (List.mem_cons_self _ _)
    have hcs : sep ∉ cs := fun hm => h (List.mem_cons_of_mem _ hm)
    simp [splitAtFirst, hc, ih hcs]

theorem splitAtFirst_append {sep : Char} {a : List Char} (b : List Char)
    (h : sep ∉ a) : splitAtFirst sep (a ++ sep :: b) = (a, some b) := by
  induction a with
  | nil => simp [splitAtFirst]
  | cons c cs ih =>
    have hc : ¬(c == sep) = true := by
      simp only [beq_iff_eq]
      rintro rfl
      exact h (List.mem_cons_self _ _)
    have hcs : sep ∉ cs := fun hm => h (List.mem_cons_of_mem _ hm)
    simp [splitAtFirst, hc, ih hcs]

theorem not_mem_splitAtFirst_fst (sep : Char) (l : List Char) :
    sep ∉ (splitAtFirst sep l).1 := by
  induction l with
  | nil => simp [splitAtFirst]
  | cons c cs ih =>
    by_cases hc : (c == sep) = true
    · simp [splitAtFirst, hc]
    · simp only [splitAtFirst, hc]
      intro hm
      rcases List.mem_cons.mp hm with h | h
      · exact hc (by simp [h])
      · exact ih h

theorem mem_of_mem_splitAtFirst_fst {sep x : Char} {l : List Char}
    (h : x ∈ (splitAtFirst sep l).1) : x ∈ l := by
  induction l with
  | nil => simp [splitAtFirst] at h
  | cons c cs ih =>
    by_cases hc : (c == sep) = true
    · simp [splitAtFirst, hc] at h
    · simp only [splitAtFirst, hc] at h
      rcases List.mem_cons.mp h with h | h
      · simp [h]
      · exact List.mem_cons_of_mem _ (ih h)

theorem splitSep_ne_nil (sep : Char) (l : List Char) : splitSep sep l ≠ [] := by
  cases l with
  | nil => simp [splitSep]
  | cons c cs =>
    simp only [splitSep]
    by_cases hc : (c == sep) = true
    · simp [hc]
    · simp only [hc]
      rcases h : splitSep sep cs with _ | ⟨h0, t⟩ <;> simp

theorem splitSep_no_sep {sep : Char} {l : List Char} (h : sep ∉ l) :
    splitSep sep l = [l] := by
  induction l with
  | nil => rfl
  | cons c cs ih =>
    have hc : ¬(c == sep) = true := by
      simp only [beq_iff_eq]
      rintro rfl
      exact h (List.mem_cons_self _ _)
    have hcs : sep ∉ cs := fun hm => h (List.mem_cons_of_mem _ hm)
    simp [splitSep, hc, ih hcs]

theorem splitSep_append {sep : Char} {a : List Char} (b : List Char)
    (h : sep ∉ a) : splitSep sep (a ++ sep :: b) = a :: splitSep sep b := by
  induction a with
  | nil => simp [splitSep]
  | cons c cs ih =>
    have hc : ¬(c == sep) = true := by
      simp only [beq_iff_eq]
      rintro rfl
      exact h (List.mem_cons_self _ _)
    have hcs : sep ∉ cs := fun hm => h (List.mem_cons_of_mem _ hm)
    have h2 := ih hcs
    simp only [List.cons_append, splitSep, hc]
    simp only [Bool.false_eq_true, if_false, List.append_eq]
    rw [h2]

theorem splitSep_sepJoin {sep : Char} {chunks : List (List Char)}
    (hne : chunks ≠ []) (h : ∀ c ∈ chunks, sep ∉ c) :
    splitSep sep (sepJoin sep chunks) = chunks := by
  induction chunks with
  | nil => exact absurd rfl hne
  | cons c cs ih =>
    cases cs with
    | nil => exact splitSep_no_sep (h c (List.mem_cons_self _ _))
    | cons c2 rest =>
      have step : sepJoin sep (c :: c2 :: rest) = c ++ sep :: sepJoin sep (c2 :: rest) := rfl
      rw [step, splitSep_append _ (h c (List.mem_cons_self _ _)),
        ih (by simp) (fun d hd => h d (List.mem_cons_of_mem _ hd))]

theorem mem_sepJoin {sep x : Char} {chunks : List (List Char)}
    (h : x ∈ sepJoin sep chunks) : x = sep ∨ ∃ c ∈ chunks, x ∈ c := by
  induction chunks with
  | nil => simp [sepJoin] at h
  | cons c cs ih =>
    cases cs with
    | nil =>
      right
      exact ⟨c, List.mem_cons_self _ _, h⟩
    | cons c2 rest =>
      have step : sepJoin sep (c :: c2 :: rest) = c ++ sep :: sepJoin sep (c2 :: rest) := rfl
      rw [step] at h
      rcases List.mem_append.mp h with h | h
      · exact Or.inr ⟨c, List.mem_cons_self _ _, h⟩
      · rcases List.mem_cons.mp h with h | h
        · exact Or.inl h
        · rcases ih h with h | ⟨d, hd, hx⟩
          · exact Or.inl h
          · exact Or.inr ⟨d, List.mem_cons_of_mem _ hd, hx⟩

/-! ## Lemmas about quote_plus and unquote_plus -/

theorem splitSep_cons_sep (sep : Char) (t : List Char) :
    splitSep sep (sep :: t) = [] :: splitSep sep t := by
  simp [splitSep]

theorem splitSep_cons_ne {sep c : Char} {t h0 : List Char}
    {tl : List (List Char)} (hc : c ≠ sep) (ht : splitSep sep t = h0 :: tl) :
    splitSep sep (c :: t) = (c :: h0) :: tl := by
  have hcb : ¬(c == sep) = true := by simp [hc]
  simp only [splitSep, hcb, Bool.false_eq_true, if_false, ht]

theorem unquoteRaw_cons {c : Char} {t : List Char} (hc : c ≠ '%') :
    unquoteRaw (c :: t) = c :: unquoteRaw t := by
  rcases ht : splitSep '%' t with _ | ⟨h0, tl⟩
  · exact absurd ht (splitSep_ne_nil _ _)
  · unfold unquoteRaw
    rw [splitSep_cons_ne hc ht, ht]
    simp

theorem hexVal_ne_percent {a : Char} {x : Nat} (ha : hexVal a = some x) : a ≠ '%' := by
  intro h
  rw [h, show hexVal '%' = none from by decide] at ha
  exact Option.noConfusion ha

theorem unquoteRaw_escape {a b : Char} {x y : Nat} (t : List Char)
    (ha : hexVal a = some x) (hb : hexVal b = some y) :
    unquoteRaw ('%' :: a :: b :: t) = Char.ofNat (16 * x + y) :: unquoteRaw t := by
  rcases ht : splitSep '%' t with _ | ⟨h0, tl⟩
  · exact absurd ht (splitSep_ne_nil _ _)
  · have h1 : splitSep '%' (b :: t) = (b :: h0) :: tl :=
      splitSep_cons_ne (hexVal_ne_percent hb) ht
    have h2 : splitSep '%' (a :: b :: t) = (a :: b :: h0) :: tl :=
      splitSep_cons_ne (hexVal_ne_percent ha) h1
    have h3 : splitSep '%' ('%' :: a :: b :: t) = [] :: (a :: b :: h0) :: tl := by
      rw [splitSep_cons_sep, h2]
    unfold unquoteRaw
    rw [h3, ht]
    simp only [List.nil_append, unquoteBits, ha, hb]
    rfl

theorem hexVal_hexDigitChar : ∀ n < 16, hexVal (hexDigitChar n) = some n := by decide

theorem hexDigitChar_ne : ∀ n < 16, hexDigitChar n ≠ '&' ∧ hexDigitChar n ≠ '=' ∧
    hexDigitChar n ≠ '#' ∧ hexDigitChar n ≠ '?' ∧ hexDigitChar n ≠ '+' ∧
    hexDigitChar n ≠ '%' := by decide

theorem isSafeChar_ne {c : Char} (h : isSafeChar c = true) :
    c ≠ '&' ∧ c ≠ '=' ∧ c ≠ '#' ∧ c ≠ '?' ∧ c ≠ '+' ∧ c ≠ '%' := by
  refine ⟨?_, ?_, ?_, ?_, ?_, ?_⟩ <;> rintro rfl <;> revert h <;> decide

theorem toNat_lt_of_not_safe {c : Char} (h : ¬isSafeChar c = true) : c.toNat < 128 := by
  by_contra hge
  exact h (by simp [isSafeChar, Nat.le_of_not_lt (fun hlt => hge hlt)])

theorem mem_encChar {x c : Char} (h : x ∈ encChar c) :
    x ≠ '&' ∧ x ≠ '=' ∧ x ≠ '#' ∧ x ≠ '?' := by
  rw [encChar] at h
  by_cases hs : isSafeChar c = true
  · rw [if_pos hs, List.mem_singleton] at h
    subst h
    have hne := isSafeChar_ne hs
    exact ⟨hne.1, hne.2.1, hne.2.2.1, hne.2.2.2.1⟩
  · rw [if_neg hs] at h
    by_cases hsp : (c == ' ') = true
    · rw [if_pos hsp, List.mem_singleton] at h
      subst h
      decide
    · rw [if_neg hsp] at h
      have hlt : c.toNat < 128 := toNat_lt_of_not_safe hs
      have hdiv : c.toNat / 16 < 16 := by omega
      have hmod : c.toNat % 16 < 16 := Nat.mod_lt _ (by norm_num)
      rcases List.mem_cons.mp h with rfl | h
      · decide
      rcases List.mem_cons.mp h with rfl | h
      · obtain ⟨d1, d2, d3, d4, _, _⟩ := hexDigitChar_ne _ hdiv
        exact ⟨d1, d2, d3, d4⟩
      rcases List.mem_cons.mp h with rfl | h
      · obtain ⟨d1, d2, d3, d4, _, _⟩ := hexDigitChar_ne _ hmod
        exact ⟨d1, d2, d3, d4⟩
      · simp at h

theorem mem_quote_plus {x : Char} {s : List Char} (h : x ∈ quote_plus s) :
    x ≠ '&' ∧ x ≠ '=' ∧ x ≠ '#' ∧ x ≠ '?' := by
  rw [quote_plus, List.mem_flatten] at h
  obtain ⟨l, hl, hx⟩ := h
  obtain ⟨c, _, rfl⟩ := List.mem_map.mp hl
  exact mem_encChar hx

theorem unquote_quote (s : List Char) : unquote_plus (quote_plus s) = s := by
  induction s with
  | nil => rfl
  | cons c cs ih =>
    have step : quote_plus (c :: cs) = encChar c ++ quote_plus cs := by
      simp [quote_plus]
    show unquoteRaw ((quote_plus (c :: cs)).map plusToSpace) = c :: cs
    rw [step, List.map_append]
    by_cases hs : isSafeChar c = true
    · have hne := isSafeChar_ne hs
      have hmap : (encChar c).map plusToSpace = [c] := by
        rw [encChar, if_pos hs]
        simp [plusToSpace, hne.2.2.2.2.1]
      rw [hmap, List.singleton_append, unquoteRaw_cons hne.2.2.2.2.2]
      show c :: unquote_plus (quote_plus cs) = c :: cs
      rw [ih]
    · by_cases hsp : (c == ' ') = true
      · have hc : c = ' ' := by simpa using hsp
        subst hc
        have hmap : (encChar ' ').map plusToSpace = [' '] := by decide
        rw [hmap, List.singleton_append, unquoteRaw_cons (by decide)]
        show ' ' :: unquote_plus (quote_plus cs) = ' ' :: cs
        rw [ih]
      · have hlt : c.toNat < 128 := toNat_lt_of_not_safe hs
        have hdiv : c.toNat / 16 < 16 := by omega
        have hmod : c.toNat % 16 < 16 := Nat.mod_lt _ (by norm_num)
        have hmap : (encChar c).map plusToSpace =
            ['%', hexDigitChar (c.toNat / 16), hexDigitChar (c.toNat % 16)] := by
          rw [encChar, if_neg hs, if_neg hsp]
          simp only [List.map_cons, List.map_nil]
          rw [show plusToSpace '%' = '%' from by decide,
            show plusToSpace (hexDigitChar (c.toNat / 16)) = hexDigitChar (c.toNat / 16) from by
              simp [plusToSpace, (hexDigitChar_ne _ hdiv).2.2.2.2.1],
            show plusToSpace (hexDigitChar (c.toNat % 16)) = hexDigitChar (c.toNat % 16) from by
              simp [plusToSpace, (hexDigitChar_ne _ hmod).2.2.2.2.1]]
        rw [hmap]
        have hstep : (['%', hexDigitChar (c.toNat / 16), hexDigitChar (c.toNat % 16)])
            ++ (quote_plus cs).map plusToSpace =
            '%' :: hexDigitChar (c.toNat / 16) :: hexDigitChar (c.toNat % 16) ::
              (quote_plus cs).map plusToSpace := rfl
        rw [hstep, unquoteRaw_escape _ (hexVal_hexDigitChar _ hdiv) (hexVal_hexDigitChar _ hmod),
          Nat.div_add_mod, Char.ofNat_toNat]
        show c :: unquote_plus (quote_plus cs) = c :: cs
        rw [ih]

/-! ## Lemmas about the query dictionaries -/

theorem qsAdd_not_mem {d : QDict} {k : List Char} (v : List Char)
    (h : k ∉ d.map Prod.fst) : qsAdd d k v = d ++ [(k, [v])] := by
  induction d with
  | nil => rfl
  | cons p rest ih =>
    obtain ⟨k0, vs⟩ := p
    have hk : ¬(k0 == k) = true := by
      simp only [beq_iff_eq]
      rintro rfl
      exact h (by simp)
    have hrest : k ∉ rest.map Prod.fst := fun hm => h (by simp [hm])
    simp [qsAdd, hk, ih hrest]

theorem mem_keys_qsAdd {d : QDict} {k x v : List Char}
    (h : x ∈ (qsAdd d k v).map Prod.fst) : x ∈ d.map Prod.fst ∨ x = k := by
  induction d with
  | nil => simpa [qsAdd] using h
  | cons p rest ih =>
    obtain ⟨k0, vs⟩ := p
    by_cases hk : (k0 == k) = true
    · simp only [qsAdd, hk, if_true] at h
      exact Or.inl (by simpa using h)
    · simp only [qsAdd, hk] at h
      simp only [Bool.false_eq_true, if_false, List.map_cons, List.mem_cons] at h
      rcases h with h | h
      · exact Or.inl (by simp [h])
      · rcases ih h with h | h
        · exact Or.inl (by simp [h])
        · exact Or.inr h

theorem nodup_keys_qsAdd {d : QDict} {k v : List Char}
    (h : (d.map Prod.fst).Nodup) : ((qsAdd d k v).map Prod.fst).Nodup := by
  induction d with
  | nil => simp [qsAdd]
  | cons p rest ih =>
    obtain ⟨k0, vs⟩ := p
    simp only [List.map_cons, List.nodup_cons] at h
    by_cases hk : (k0 == k) = true
    · simpa [qsAdd, hk, List.nodup_cons] using h
    · simp only [qsAdd, hk, Bool.false_eq_true, if_false, List.map_cons, List.nodup_cons]
      refine ⟨fun hm => ?_, ih h.2⟩
      rcases mem_keys_qsAdd hm with hm | hm
      · exact h.1 hm
      · exact hk (by simp [hm])

theorem foldl_qsAdd_singletons :
    ∀ (pairs : List (List Char × List Char)) (acc : QDict),
      (pairs.map Prod.fst).Nodup →
      (∀ p ∈ pairs, p.1 ∉ acc.map Prod.fst) →
      pairs.foldl (fun d p => qsAdd d p.1 p.2) acc =
        acc ++ pairs.map (fun p => (p.1, [p.2])) := by
  intro pairs
  induction pairs with
  | nil => intro acc _ _; simp
  | cons p rest ih =>
    intro acc hnd hdisj
    obtain ⟨k, v⟩ := p
    simp only [List.map_cons, List.nodup_cons] at hnd
    have hstep : qsAdd acc k v = acc ++ [(k, [v])] :=
      qsAdd_not_mem v (hdisj (k, v) (List.mem_cons_self _ _))
    simp only [List.foldl_cons, hstep]
    rw [ih (acc ++ [(k, [v])]) hnd.2]
    · simp
    · intro q hq
      simp only [List.map_append, List.mem_append, List.map_cons]
      rintro (hm | hm)
      · exact hdisj q (List.mem_cons_of_mem _ hq) hm
      · simp only [List.map_nil, List.mem_cons, List.not_mem_nil, or_false] at hm
        exact hnd.1 (hm ▸ List.mem_map_of_mem Prod.fst hq)

theorem nodup_keys_parse_qs (q : List Char) : ((parse_qs q).map Prod.fst).Nodup := by
  rw [parse_qs]
  generalize parse_qsl q = pairs
  suffices h : ∀ (pairs : List (List Char × List Char)) (acc : QDict),
      (acc.map Prod.fst).Nodup →
      ((pairs.foldl (fun d p => qsAdd d p.1 p.2) acc).map Prod.fst).Nodup by
    exact h pairs [] (by simp)
  intro pairs
  induction pairs with
  | nil => intro acc h; simpa using h
  | cons p rest ih =>
    intro acc h
    exact ih _ (nodup_keys_qsAdd h)

theorem lookupQ_setdefault_isSome (d : QDict) (k : List Char) (v : List (List Char)) :
    (lookupQ (setdefault d k v) k).isSome := by
  induction d with
  | nil => simp [setdefault, lookupQ]
  | cons p rest ih =>
    obtain ⟨k0, vs⟩ := p
    by_cases hk : (k0 == k) = true
    · simp [setdefault, lookupQ, hk]
    · simp [setdefault, lookupQ, hk, ih]

theorem lookupQ_setdefault_of_some {d : QDict} {k' : List Char}
    {vs : List (List Char)} (k : List Char) (v : List (List Char))
    (h : lookupQ d k' = some vs) : lookupQ (setdefault d k v) k' = some vs := by
  induction d with
  | nil => simp [lookupQ] at h
  | cons p rest ih =>
    obtain ⟨k0, vs0⟩ := p
    by_cases hk0 : (k0 == k') = true
    · simp only [lookupQ, hk0, if_true] at h
      by_cases hk : (k0 == k) = true
      · simp [setdefault, lookupQ, hk, hk0, h]
      · simp [setdefault, lookupQ, hk, hk0, h]
    · simp only [lookupQ, hk0, Bool.false_eq_true, if_false] at h
      by_cases hk : (k0 == k) = true
      · simp [setdefault, lookupQ, hk, hk0, h]
      · simp [setdefault, lookupQ, hk, hk0, ih h]

theorem setdefault_of_some {d : QDict} {k : List Char} {vs : List (List Char)}
    (v : List (List Char)) (h : lookupQ d k = some vs) : setdefault d k v = d := by
  induction d with
  | nil => simp [lookupQ] at h
  | cons p rest ih =>
    obtain ⟨k0, vs0⟩ := p
    by_cases hk : (k0 == k) = true
    · simp [setdefault, hk]
    · simp only [lookupQ, hk, Bool.false_eq_true, if_false] at h
      simp [setdefault, hk, ih h]

theorem mem_keys_setdefault {d : QDict} {k x : List Char} {v : List (List Char)}
    (h : x ∈ (setdefault d k v).map Prod.fst) : x ∈ d.map Prod.fst ∨ x = k := by
  induction d with
  | nil => simpa [setdefault] using h
  | cons p rest ih =>
    obtain ⟨k0, vs0⟩ := p
    by_cases hk : (k0 == k) = true
    · exact Or.inl (by simpa [setdefault, hk] using h)
    · simp only [setdefault, hk, Bool.false_eq_true, if_false, List.map_cons,
        List.mem_cons] at h
      rcases h with h | h
      · exact Or.inl (by simp [h])
      · rcases ih h with h | h
        · exact Or.inl (by simp [h])
        · exact Or.inr h

theorem nodup_keys_setdefault {d : QDict} {k : List Char} {v : List (List Char)}
    (h : (d.map Prod.fst).Nodup) : ((setdefault d k v).map Prod.fst).Nodup := by
  induction d with
  | nil => simp [setdefault]
  | cons p rest ih =>
    obtain ⟨k0, vs0⟩ := p
    simp only [List.map_cons, List.nodup_cons] at h
    by_cases hk : (k0 == k) = true
    · simpa [setdefault, hk, List.nodup_cons] using h
    · simp only [setdefault, hk, Bool.false_eq_true, if_false, List.map_cons,
        List.nodup_cons]
      refine ⟨fun hm => ?_, ih h.2⟩
      rcases mem_keys_setdefault hm with hm | hm
      · exact h.1 hm
      · exact hk (by simp [hm])

theorem lookupQ_map_lastVal (d : QDict) (k : List Char) :
    lookupQ (d.map (fun kv => (kv.1, [lastVal kv.2]))) k =
      (lookupQ d k).map (fun vs => [lastVal vs]) := by
  induction d with
  | nil => simp [lookupQ]
  | cons p rest ih =>
    obtain ⟨k0, vs0⟩ := p
    by_cases hk : (k0 == k) = true
    · simp [lookupQ, hk]
    · simp [lookupQ, hk, ih]

/-! ## The encode-then-parse round trip -/

theorem lastVal_single (v : List Char) : lastVal [v] = v := by
  simp [lastVal]

theorem encPair_ne_nil (kv : List Char × List (List Char)) : encPair kv ≠ [] := by
  rw [encPair]
  intro h
  exact absurd (congrArg List.length h) (by simp)

theorem amp_not_mem_encPair {x : Char} {kv : List Char × List (List Char)}
    (h : x ∈ encPair kv) : x ≠ '&' := by
  rw [encPair] at h
  rcases List.mem_append.mp h with h | h
  · exact (mem_quote_plus h).1
  · rcases List.mem_cons.mp h with rfl | h
    · decide
    · exact (mem_quote_plus h).1

theorem parseChunk_encPair (kv : List Char × List (List Char)) :
    parseChunk (encPair kv) = (kv.1, lastVal kv.2) := by
  have hne : ('=' : Char) ∉ quote_plus kv.1 := fun hm => (mem_quote_plus hm).2.1 rfl
  rw [parseChunk, encPair, splitAtFirst_append _ hne]
  simp [unquote_quote]

theorem parse_qsl_urlencode (d : QDict) :
    parse_qsl (urlencode d) = d.map (fun kv => (kv.1, lastVal kv.2)) := by
  cases d with
  | nil => rfl
  | cons kv rest =>
    rw [parse_qsl, urlencode,
      splitSep_sepJoin (by simp) (by
        intro c hc hm
        obtain ⟨p, _, rfl⟩ := List.mem_map.mp hc
        exact amp_not_mem_encPair hm rfl)]
    rw [List.filter_eq_self.mpr (by
      intro a ha
      obtain ⟨p, _, rfl⟩ := List.mem_map.mp ha
      simpa using encPair_ne_nil p)]
    rw [List.map_map]
    exact List.map_congr_left (fun p _ => parseChunk_encPair p)

theorem parse_qs_urlencode {d : QDict} (hnd : (d.map Prod.fst).Nodup) :
    parse_qs (urlencode d) = d.map (fun kv => (kv.1, [lastVal kv.2])) := by
  rw [parse_qs, parse_qsl_urlencode]
  rw [foldl_qsAdd_singletons _ [] (by simpa [List.map_map] using hnd) (by simp)]
  simp [List.map_map]

/-! ## Structure of the enriched DSN -/

theorem setdefault_ne_nil (d : QDict) (k : List Char) (v : List (List Char)) :
    setdefault d k v ≠ [] := by
  cases d with
  | nil => simp [setdefault]
  | cons p rest =>
    obtain ⟨k0, vs⟩ := p
    simp only [setdefault]
    split <;> simp

theorem setDefaults_ne_nil (q : QDict) : setDefaults q ≠ [] := by
  rw [setDefaults]
  exact setdefault_ne_nil _ _ _

theorem sepJoin_cons_ne_nil {sep : Char} {c : List Char} (l : List (List Char))
    (h : c ≠ []) : sepJoin sep (c :: l) ≠ [] := by
  cases l with
  | nil => simpa [sepJoin] using h
  | cons c2 rest =>
    have step : sepJoin sep (c :: c2 :: rest) = c ++ sep :: sepJoin sep (c2 :: rest) := rfl
    rw [step]
    simp

theorem urlencode_ne_nil {d : QDict} (h : d ≠ []) : urlencode d ≠ [] := by
  cases d with
  | nil => exact absurd rfl h
  | cons kv rest =>
    rw [urlencode, List.map_cons]
    exact sepJoin_cons_ne_nil _ (encPair_ne_nil kv)

theorem mem_urlencode_ne {x : Char} {d : QDict} (h : x ∈ urlencode d) :
    x ≠ '#' ∧ x ≠ '?' := by
  rw [urlencode] at h
  rcases mem_sepJoin h with rfl | ⟨c, hc, hx⟩
  · decide
  · obtain ⟨p, _, rfl⟩ := List.mem_map.mp hc
    rw [encPair] at hx
    rcases List.mem_append.mp hx with hx | hx
    · exact ⟨(mem_quote_plus hx).2.2.1, (mem_quote_plus hx).2.2.2⟩
    · rcases List.mem_cons.mp hx with rfl | hx
      · decide
      · exact ⟨(mem_quote_plus hx).2.2.1, (mem_quote_plus hx).2.2.2⟩

theorem newQueryOf_ne_nil (dsn : List Char) : newQueryOf dsn ≠ [] :=
  urlencode_ne_nil (setDefaults_ne_nil _)

theorem enrich_explicit (dsn : List Char) :
    enrich dsn = baseOf dsn ++ '?' :: newQueryOf dsn ++ fragPart (fragOf dsn) := by
  have h0 : enrich dsn = urlunparse_q (baseOf dsn) (newQueryOf dsn) (fragOf dsn) := rfl
  rw [h0, urlunparse_q, if_neg (by simp [List.isEmpty_iff, newQueryOf_ne_nil])]

theorem qmark_not_mem_baseOf (dsn : List Char) : ('?' : Char) ∉ baseOf dsn :=
  not_mem_splitAtFirst_fst _ _

theorem hash_not_mem_baseOf (dsn : List Char) : ('#' : Char) ∉ baseOf dsn := by
  intro h
  exact not_mem_splitAtFirst_fst '#' dsn (mem_of_mem_splitAtFirst_fst h)

theorem hash_not_mem_pre (dsn : List Char) :
    ('#' : Char) ∉ baseOf dsn ++ '?' :: newQueryOf dsn := by
  intro h
  rcases List.mem_append.mp h with h | h
  · exact hash_not_mem_baseOf dsn h
  · rcases List.mem_cons.mp h with h | h
    · exact absurd h (by decide)
    · exact (mem_urlencode_ne h).1 rfl

theorem splitHash_enrich (dsn : List Char) :
    splitAtFirst '#' (enrich dsn) =
      (baseOf dsn ++ '?' :: newQueryOf dsn, normFrag (fragOf dsn)) := by
  rw [enrich_explicit]
  rcases hf : fragOf dsn with _ | f
  · rw [fragPart, List.append_nil, normFrag]
    exact splitAtFirst_not_mem (hash_not_mem_pre dsn)
  · rcases hfe : f.isEmpty with _ | _
    · rw [fragPart, if_neg (by simp [hfe]), normFrag, if_neg (by simp [hfe])]
      have hassoc : baseOf dsn ++ '?' :: newQueryOf dsn ++ '#' :: f =
          (baseOf dsn ++ '?' :: newQueryOf dsn) ++ '#' :: f := by simp
      rw [hassoc]
      exact splitAtFirst_append _ (hash_not_mem_pre dsn)
    · rw [fragPart, if_pos (by simp [hfe]), normFrag, if_pos (by simp [hfe]),
        List.append_nil]
      exact splitAtFirst_not_mem (hash_not_mem_pre dsn)

theorem splitQmark_enrich (dsn : List Char) :
    splitAtFirst '?' (baseOf dsn ++ '?' :: newQueryOf dsn) =
      (baseOf dsn, some (newQueryOf dsn)) :=
  splitAtFirst_append _ (qmark_not_mem_baseOf dsn)

theorem queryOf_enrich (dsn : List Char) : queryOf (enrich dsn) = newQueryOf dsn := by
  rw [queryOf, splitHash_enrich, splitQmark_enrich]
  rfl

theorem baseOf_enrich (dsn : List Char) : baseOf (enrich dsn) = baseOf dsn := by
  rw [baseOf, splitHash_enrich, splitQmark_enrich]

theorem fragOf_enrich (dsn : List Char) : fragOf (enrich dsn) = normFrag (fragOf dsn) := by
  rw [fragOf, splitHash_enrich]

theorem nodup_keys_setDefaults {q : QDict} (h : (q.map Prod.fst).Nodup) :
    ((setDefaults q).map Prod.fst).Nodup := by
  rw [setDefaults]
  exact nodup_keys_setdefault (nodup_keys_setdefault (nodup_keys_setdefault
    (nodup_keys_setdefault (nodup_keys_setdefault h))))

theorem lookupQ_setdefault_isSome_mono {d : QDict} {k' : List Char}
    (k : List Char) (v : List (List Char)) (h : (lookupQ d k').isSome) :
    (lookupQ (setdefault d k v) k').isSome := by
  obtain ⟨vs, hvs⟩ := Option.isSome_iff_exists.mp h
  rw [lookupQ_setdefault_of_some k v hvs]
  rfl

theorem lookupQ_setDefaults_isSome (q : QDict) :
    (lookupQ (setDefaults q) "keepalives".toList).isSome ∧
    (lookupQ (setDefaults q) "keepalives_idle".toList).isSome ∧
    (lookupQ (setDefaults q) "keepalives_interval".toList).isSome ∧
    (lookupQ (setDefaults q) "keepalives_count".toList).isSome ∧
    (lookupQ (setDefaults q) "connect_timeout".toList).isSome := by
  rw [setDefaults]
  refine ⟨?_, ?_, ?_, ?_, ?_⟩
  · exact lookupQ_setdefault_isSome_mono _ _ (lookupQ_setdefault_isSome_mono _ _
      (lookupQ_setdefault_isSome_mono _ _ (lookupQ_setdefault_isSome_mono _ _
        (lookupQ_setdefault_isSome _ _ _))))
  · exact lookupQ_setdefault_isSome_mono _ _ (lookupQ_setdefault_isSome_mono _ _
      (lookupQ_setdefault_isSome_mono _ _ (lookupQ_setdefault_isSome _ _ _)))
  · exact lookupQ_setdefault_isSome_mono _ _ (lookupQ_setdefault_isSome_mono _ _
      (lookupQ_setdefault_isSome _ _ _))
  · exact lookupQ_setdefault_isSome_mono _ _ (lookupQ_setdefault_isSome _ _ _)
  · exact lookupQ_setdefault_isSome _ _ _

theorem setDefaults_noop {d : QDict}
    (h1 : (lookupQ d "keepalives".toList).isSome)
    (h2 : (lookupQ d "keepalives_idle".toList).isSome)
    (h3 : (lookupQ d "keepalives_interval".toList).isSome)
    (h4 : (lookupQ d "keepalives_count".toList).isSome)
    (h5 : (lookupQ d "connect_timeout".toList).isSome) :
    setDefaults d = d := by
  obtain ⟨v1, hv1⟩ := Option.isSome_iff_exists.mp h1
  obtain ⟨v2, hv2⟩ := Option.isSome_iff_exists.mp h2
  obtain ⟨v3, hv3⟩ := Option.isSome_iff_exists.mp h3
  obtain ⟨v4, hv4⟩ := Option.isSome_iff_exists.mp h4
  obtain ⟨v5, hv5⟩ := Option.isSome_iff_exists.mp h5
  rw [setDefaults, setdefault_of_some _ hv1, setdefault_of_some _ hv2,
    setdefault_of_some _ hv3, setdefault_of_some _ hv4, setdefault_of_some _ hv5]

theorem parse_qs_newQueryOf (dsn : List Char) :
    parse_qs (newQueryOf dsn) =
      (setDefaults (parse_qs (queryOf dsn))).map (fun kv => (kv.1, [lastVal kv.2])) := by
  rw [newQueryOf]
  exact parse_qs_urlencode (nodup_keys_setDefaults (nodup_keys_parse_qs _))

theorem urlencode_map_lastVal (d : QDict) :
    urlencode (d.map (fun kv => (kv.1, [lastVal kv.2]))) = urlencode d := by
  rw [urlencode, urlencode, List.map_map]
  have hfun : (encPair ∘ fun kv : List Char × List (List Char) => (kv.1, [lastVal kv.2])) =
      encPair := by
    funext p
    simp [Function.comp, encPair, lastVal_single]
  rw [hfun]

theorem newQueryOf_enrich (dsn : List Char) : newQueryOf (enrich dsn) = newQueryOf dsn := by
  have hmap : ∀ k : List Char,
      (lookupQ (parse_qs (newQueryOf dsn)) k).isSome =
        (lookupQ (setDefaults (parse_qs (queryOf dsn))) k).isSome := by
    intro k
    rw [parse_qs_newQueryOf, lookupQ_map_lastVal]
    cases lookupQ (setDefaults (parse_qs (queryOf dsn))) k <;> rfl
  have h5 := lookupQ_setDefaults_isSome (parse_qs (queryOf dsn))
  rw [newQueryOf, queryOf_enrich,
    setDefaults_noop (by rw [hmap]; exact h5.1) (by rw [hmap]; exact h5.2.1)
      (by rw [hmap]; exact h5.2.2.1) (by rw [hmap]; exact h5.2.2.2.1)
      (by rw [hmap]; exact h5.2.2.2.2),
    parse_qs_newQueryOf, urlencode_map_lastVal]
  rfl

theorem fragPart_normFrag (o : Option (List Char)) :
    fragPart (normFrag o) = fragPart o := by
  rcases o with _ | f
  · rfl
  · rcases hfe : f.isEmpty with _ | _
    · simp [normFrag, fragPart, hfe]
    · simp [normFrag, fragPart, hfe]

theorem enrich_enrich (dsn : List Char) : enrich (enrich dsn) = enrich dsn := by
  rw [enrich_explicit (enrich dsn), baseOf_enrich, newQueryOf_enrich, fragOf_enrich,
    fragPart_normFrag, ← enrich_explicit]

/-! ## Remaining helper lemmas for the DSN guard -/

theorem isEmpty_false_of_hasSub {dsn : List Char} (h : hasSub schemeSep dsn = true) :
    dsn.isEmpty = false := by
  cases dsn with
  | nil => simp [hasSub, schemeSep] at h
  | cons c cs => rfl

theorem add_keepalives_eq_enrich {dsn : List Char} (h : hasSub schemeSep dsn = true) :
    add_keepalives_to_dsn dsn = enrich dsn := by
  rw [add_keepalives_to_dsn, if_neg]
  simp [isEmpty_false_of_hasSub h, h]

theorem lookupQ_setDefaults_of_some {d : QDict} {k : List Char}
    {vs : List (List Char)} (h : lookupQ d k = some vs) :
    lookupQ (setDefaults d) k = some vs := by
  rw [setDefaults]
  exact lookupQ_setdefault_of_some _ _ (lookupQ_setdefault_of_some _ _
    (lookupQ_setdefault_of_some _ _ (lookupQ_setdefault_of_some _ _
      (lookupQ_setdefault_of_some _ _ h))))

/-! ## Lemmas about the decimal model -/

theorem roundHalfEven_intCast (z : ℤ) : roundHalfEven (z : ℚ) = z := by
  rw [roundHalfEven]
  simp only [Int.floor_intCast, sub_self]
  norm_num

theorem quantize2_eq_self {q : ℚ} {z : ℤ} (h : q * 100 = (z : ℚ)) : quantize2 q = q := by
  rw [quantize2, h, roundHalfEven_intCast, ← h]
  field_simp

theorem quantize2_two_decimals (q : ℚ) : ∃ z : ℤ, quantize2 q = (z : ℚ) / 100 :=
  ⟨roundHalfEven (q * 100), rfl⟩

theorem roundHalfEven_nonpos {x : ℚ} (h : x ≤ 0) : roundHalfEven x ≤ 0 := by
  have hf : ⌊x⌋ ≤ 0 := by
    have := Int.floor_le_floor (α := ℚ) h
    simpa using this
  rw [roundHalfEven]
  split_ifs with h1 h2 h3
  · exact hf
  · have hr : (1 : ℚ) / 2 ≤ x - (⌊x⌋ : ℚ) := le_of_not_lt h1
    have hneg : (⌊x⌋ : ℚ) < 0 := by linarith
    have hlt : ⌊x⌋ < 0 := by exact_mod_cast hneg
    omega
  · exact hf
  · have hr : (1 : ℚ) / 2 ≤ x - (⌊x⌋ : ℚ) := le_of_not_lt h1
    have hneg : (⌊x⌋ : ℚ) < 0 := by linarith
    have hlt : ⌊x⌋ < 0 := by exact_mod_cast hneg
    omega

theorem quantize2_nonpos {q : ℚ} (h : q ≤ 0) : quantize2 q ≤ 0 := by
  have h100 : q * 100 ≤ 0 := by
    have := mul_le_mul_of_nonneg_right h (by norm_num : (0 : ℚ) ≤ 100)
    simpa using this
  have hr : roundHalfEven (q * 100) ≤ 0 := roundHalfEven_nonpos h100
  have hc : ((roundHalfEven (q * 100) : ℤ) : ℚ) ≤ 0 := by exact_mod_cast hr
  rw [quantize2, div_nonpos_iff]
  exact Or.inr ⟨hc, by norm_num⟩

/-! ## Lemmas about the submit validation -/

theorem procesar_submit_of_mem {s : SessionState} {f : GastoForm} {m : String}
    (h : m ∈ errores_de s f) :
    (procesar_submit s f).errores = errores_de s f ∧ (procesar_submit s f).datos = none := by
  have hne : ¬(errores_de s f).isEmpty = true := by
    simp only [List.isEmpty_iff]
    exact List.ne_nil_of_mem h
  rw [procesar_submit, if_neg hne]
  exact ⟨rfl, rfl⟩

theorem mem_errores_monto {s : SessionState} {f : GastoForm}
    (h : quantize2 f.monto ≤ 0) : MSG_MONTO ∈ errores_de s f := by
  rw [errores_de, if_pos h]
  simp

theorem mem_errores_obra {s : SessionState} {f : GastoForm}
    (h : f.obra_nombre = PLACEHOLDER) : MSG_OBRA ∈ errores_de s f := by
  rw [errores_de, if_pos h]
  simp

theorem mem_errores_comprobante {s : SessionState} {f : GastoForm}
    (h : pyStrip f.comprobante_numero = "") : MSG_COMPROBANTE ∈ errores_de s f := by
  rw [errores_de, if_pos h]
  simp

theorem mem_errores_concepto {s : SessionState} {f : GastoForm}
    (h : pyStrip f.concepto = "") : MSG_CONCEPTO ∈ errores_de s f := by
  rw [errores_de, if_pos h]
  simp

theorem mem_errores_conexion {s : SessionState} {f : GastoForm}
    (h : s.db_connected = false) : MSG_SIN_CONEXION ∈ errores_de s f := by
  simp [errores_de, h]

/-! ## Claim theorems -/

/-- C1: for every acquisition via pooled_conn(), when the first borrowed
connection fails its probe it is returned to the pool with close=True (not
recycled), exactly one more connection is borrowed and probed, and when the
second probe also fails the run ends with the "no healthy connection"
RuntimeError, no connection is yielded to the caller, and no further
connection is borrowed within the call. -/
theorem C1_two_failed_probes (c1 c2 : Conn) (rest : List Conn) (bodyOk : Bool)
    (h1 : probeFail c1 = true) (h2 : probeFail c2 = true) :
    pooled_conn (.ok (c1 :: c2 :: rest)) bodyOk =
      ⟨.noHealthy, [.borrowed c1, .returned c1 true, .borrowed c2, .returned c2 false]⟩ ∧
    yieldedConn (pooled_conn (.ok (c1 :: c2 :: rest)) bodyOk).outcome = none ∧
    (borrowedConns (pooled_conn (.ok (c1 :: c2 :: rest)) bodyOk).events).length = 2 := by
  have he : pooled_conn (.ok (c1 :: c2 :: rest)) bodyOk =
      ⟨.noHealthy, [.borrowed c1, .returned c1 true, .borrowed c2, .returned c2 false]⟩ := by
    simp [pooled_conn, h1, h2]
  refine ⟨he, ?_, ?_⟩ <;> rw [he] <;> rfl

/-- Witness for C1 at a concrete pool: both connections fail the probe. -/
theorem C1_two_failed_probes_witness :
    pooled_conn (.ok [⟨1, false, false⟩, ⟨2, true, true⟩]) true =
      ⟨.noHealthy, [.borrowed ⟨1, false, false⟩, .returned ⟨1, false, false⟩ true,
        .borrowed ⟨2, true, true⟩, .returned ⟨2, true, true⟩ false]⟩ ∧
    yieldedConn (pooled_conn (.ok [⟨1, false, false⟩, ⟨2, true, true⟩]) true).outcome = none ∧
    (borrowedConns (pooled_conn (.ok [⟨1, false, false⟩, ⟨2, true, true⟩]) true).events).length
      = 2 :=
  C1_two_failed_probes ⟨1, false, false⟩ ⟨2, true, true⟩ [] true (by decide) (by decide)

/-- C2: when the first probe fails and the second succeeds, pooled_conn()
yields the second connection to the caller, and the first connection was
returned marked for closure, never for recycling. -/
theorem C2_second_probe_ok (c1 c2 : Conn) (rest : List Conn) (bodyOk : Bool)
    (h1 : probeFail c1 = true) (h2 : probeFail c2 = false) :
    yieldedConn (pooled_conn (.ok (c1 :: c2 :: rest)) bodyOk).outcome = some c2 ∧
    PoolEvent.returned c1 true ∈ (pooled_conn (.ok (c1 :: c2 :: rest)) bodyOk).events ∧
    PoolEvent.returned c1 false ∉ (pooled_conn (.ok (c1 :: c2 :: rest)) bodyOk).events := by
  have hne : c1 ≠ c2 := by
    intro h
    rw [h, h2] at h1
    exact Bool.noConfusion h1
  have he : pooled_conn (.ok (c1 :: c2 :: rest)) bodyOk =
      ⟨if bodyOk then .success c2 else .bodyError c2,
       [.borrowed c1, .returned c1 true, .borrowed c2, .returned c2 false]⟩ := by
    simp [pooled_conn, h1, h2]
  refine ⟨?_, ?_, ?_⟩ <;> rw [he]
  · cases bodyOk <;> rfl
  · simp
  · simp [hne]

/-- Witness for C2 at a concrete pool: first connection dead, second live. -/
theorem C2_second_probe_ok_witness :
    yieldedConn (pooled_conn (.ok [⟨1, false, false⟩, ⟨2, false, true⟩]) true).outcome =
      some ⟨2, false, true⟩ ∧
    PoolEvent.returned ⟨1, false, false⟩ true ∈
      (pooled_conn (.ok [⟨1, false, false⟩, ⟨2, false, true⟩]) true).events ∧
    PoolEvent.returned ⟨1, false, false⟩ false ∉
      (pooled_conn (.ok [⟨1, false, false⟩, ⟨2, false, true⟩]) true).events :=
  C2_second_probe_ok ⟨1, false, false⟩ ⟨2, false, true⟩ [] true (by decide) (by decide)

/-- C3: on every exit path of pooled_conn() — success of the body, an
exception in the body, a probe failure during acquisition, or pool
unavailability — the connections handed out by getconn are exactly the
connections given back by putconn: nothing is leaked. -/
theorem C3_no_connection_leaked (p : Except String (List Conn)) (bodyOk : Bool) :
    borrowedConns (pooled_conn p bodyOk).events =
      returnedConns (pooled_conn p bodyOk).events := by
  rcases p with m | supply
  · rfl
  rcases supply with _ | ⟨c1, rest⟩
  · rfl
  by_cases h1 : probeFail c1 = true
  · rcases rest with _ | ⟨c2, rest2⟩
    · simp [pooled_conn, h1, borrowedConns, returnedConns]
    by_cases h2 : probeFail c2 = true
    · simp [pooled_conn, h1, h2, borrowedConns, returnedConns]
    · simp [pooled_conn, h1, h2, borrowedConns, returnedConns]
  · simp [pooled_conn, h1, borrowedConns, returnedConns]

/-- C7: with DATABASE_URL absent from secrets and environment, the DSN is
empty, get_pool raises its RuntimeError, and a pooled_conn() run against
that failed pool ends in a pool error without yielding (or even borrowing)
any connection — no storage operation can obtain a connection. -/
theorem C7_missing_database_url (conns : List Conn) (bodyOk : Bool) :
    get_pool (ENRICHED_DSN none none) conns = .error noDsnMsg ∧
    pooled_conn (get_pool (ENRICHED_DSN none none) conns) bodyOk =
      ⟨.poolError noDsnMsg, []⟩ ∧
    yieldedConn (pooled_conn (get_pool (ENRICHED_DSN none none) conns) bodyOk).outcome =
      none :=
  ⟨rfl, rfl, rfl⟩

/-- C4: a submission with a non-positive amount, an empty voucher number,
an empty concept, or the project placeholder still selected is rejected
with the corresponding inline message and produces no validated data, so
the confirmation step never opens and insertar_gasto is never reached. -/
theorem C4_validation_blocks (s : SessionState) (f : GastoForm) :
    (f.monto ≤ 0 →
      MSG_MONTO ∈ (procesar_submit s f).errores ∧ (procesar_submit s f).datos = none) ∧
    (f.comprobante_numero = "" →
      MSG_COMPROBANTE ∈ (procesar_submit s f).errores ∧ (procesar_submit s f).datos = none) ∧
    (f.concepto = "" →
      MSG_CONCEPTO ∈ (procesar_submit s f).errores ∧ (procesar_submit s f).datos = none) ∧
    (f.obra_nombre = PLACEHOLDER →
      MSG_OBRA ∈ (procesar_submit s f).errores ∧ (procesar_submit s f).datos = none) := by
  refine ⟨fun h => ?_, fun h => ?_, fun h => ?_, fun h => ?_⟩
  · have hm := mem_errores_monto (s := s) (f := f) (quantize2_nonpos h)
    obtain ⟨he, hd⟩ := procesar_submit_of_mem hm
    exact ⟨he ▸ hm, hd⟩
  · have hm := mem_errores_comprobante (s := s) (f := f) (by rw [h]; rfl)
    obtain ⟨he, hd⟩ := procesar_submit_of_mem hm
    exact ⟨he ▸ hm, hd⟩
  · have hm := mem_errores_concepto (s := s) (f := f) (by rw [h]; rfl)
    obtain ⟨he, hd⟩ := procesar_submit_of_mem hm
    exact ⟨he ▸ hm, hd⟩
  · have hm := mem_errores_obra (s := s) (f := f) h
    obtain ⟨he, hd⟩ := procesar_submit_of_mem hm
    exact ⟨he ▸ hm, hd⟩

/-- Witness for C4: a form violating all four checks at once, in a session
with a live database connection. -/
theorem C4_validation_blocks_witness :
    (MSG_MONTO ∈ (procesar_submit ⟨true, none, false, none, false, none⟩
        ⟨0, "", 0, "", "", "Efectivo", "", "— Seleccionar —"⟩).errores ∧
      (procesar_submit ⟨true, none, false, none, false, none⟩
        ⟨0, "", 0, "", "", "Efectivo", "", "— Seleccionar —"⟩).datos = none) ∧
    (MSG_COMPROBANTE ∈ (procesar_submit ⟨true, none, false, none, false, none⟩
        ⟨0, "", 0, "", "", "Efectivo", "", "— Seleccionar —"⟩).errores ∧
      (procesar_submit ⟨true, none, false, none, false, none⟩
        ⟨0, "", 0, "", "", "Efectivo", "", "— Seleccionar —"⟩).datos = none) ∧
    (MSG_CONCEPTO ∈ (procesar_submit ⟨true, none, false, none, false, none⟩
        ⟨0, "", 0, "", "", "Efectivo", "", "— Seleccionar —"⟩).errores ∧
      (procesar_submit ⟨true, none, false, none, false, none⟩
        ⟨0, "", 0, "", "", "Efectivo", "", "— Seleccionar —"⟩).datos = none) ∧
    (MSG_OBRA ∈ (procesar_submit ⟨true, none, false, none, false, none⟩
        ⟨0, "", 0, "", "", "Efectivo", "", "— Seleccionar —"⟩).errores ∧
      (procesar_submit ⟨true, none, false, none, false, none⟩
        ⟨0, "", 0, "", "", "Efectivo", "", "— Seleccionar —"⟩).datos = none) := by
  obtain ⟨p1, p2, p3, p4⟩ := C4_validation_blocks ⟨true, none, false, none, false, none⟩
    ⟨0, "", 0, "", "", "Efectivo", "", "— Seleccionar —"⟩
  exact ⟨p1 (le_refl 0), p2 rfl, p3 rfl, p4 rfl⟩

/-- C5: a storage failure inside cargar_obras or insertar_gasto sets the
process-wide db_connected flag to False, and while that flag is unset the
submit validation emits the connection error and blocks the submission. -/
theorem C5_storage_error_flag :
    (∀ (e : String) (s : SessionState),
      (cargar_obras (.error e) s).2.db_connected = false) ∧
    (∀ (e : String) (s : SessionState) (d : DatosGasto),
      (insertar_gasto (.error e) s d).2.1.db_connected = false) ∧
    (∀ (s : SessionState) (f : GastoForm), s.db_connected = false →
      MSG_SIN_CONEXION ∈ (procesar_submit s f).errores ∧
        (procesar_submit s f).datos = none) := by
  refine ⟨fun e s => rfl, fun e s d => rfl, fun s f h => ?_⟩
  have hm := mem_errores_conexion (f := f) h
  obtain ⟨he, hd⟩ := procesar_submit_of_mem hm
  exact ⟨he ▸ hm, hd⟩

/-- Witness for C5: a disconnected session blocks an otherwise complete
submission. -/
theorem C5_storage_error_flag_witness :
    MSG_SIN_CONEXION ∈ (procesar_submit ⟨false, none, false, none, false, none⟩
      ⟨0, "c", 1, "p", "n", "Efectivo", "A-1", "Obra A"⟩).errores ∧
    (procesar_submit ⟨false, none, false, none, false, none⟩
      ⟨0, "c", 1, "p", "n", "Efectivo", "A-1", "Obra A"⟩).datos = none :=
  C5_storage_error_flag.2.2 _ _ rfl

/-- C8: an activation of the confirm control while the enviando flag is
set performs no insertar_gasto call at all, and any single activation
performs at most one: at most one storage insert per confirmed
submission. -/
theorem C8_double_submit_guard :
    (∀ (s : SessionState) (d : DatosGasto) (db : Except String Unit),
      s.enviando = true → (confirmar_click s d db).1 = 0) ∧
    (∀ (s : SessionState) (d : DatosGasto) (db : Except String Unit),
      (confirmar_click s d db).1 ≤ 1) := by
  constructor
  · intro s d db h
    simp [confirmar_click, h]
  · intro s d db
    by_cases h : s.enviando = true
    · simp [confirmar_click, h]
    · simp only [confirmar_click, h, Bool.false_eq_true, if_false]
      rcases db with e | u <;> simp [insertar_gasto]

/-- Witness for C8: a click while a save is in flight inserts nothing. -/
theorem C8_double_submit_guard_witness :
    (confirmar_click ⟨true, none, true, none, false, none⟩
      ⟨0, "c", 1, "p", "n", "Obra A", "pr", "Efectivo"⟩ (.ok ())).1 = 0 :=
  C8_double_submit_guard.1 _ _ _ rfl

/-- C9: the amount stored in the validated data is the form value
converted through quantize2 (its text representation rounded to two
decimal places), insertar_gasto passes it to the row unchanged, a value
that already has two decimal places is preserved exactly, and every
quantized amount is an integer number of cents. -/
theorem C9_monto_quantized :
    (∀ (s : SessionState) (f : GastoForm) (d : DatosGasto),
      (procesar_submit s f).datos = some d →
        d.monto = quantize2 f.monto ∧ ∃ z : ℤ, d.monto = (z : ℚ) / 100) ∧
    (∀ (db : Except String Unit) (s : SessionState) (d : DatosGasto) (row : GastoRow),
      (insertar_gasto db s d).2.2 = some row → row.monto = d.monto) ∧
    (∀ (q : ℚ) (z : ℤ), q * 100 = (z : ℚ) → quantize2 q = q) := by
  refine ⟨fun s f d h => ?_, fun db s d row h => ?_, fun q z h => quantize2_eq_self h⟩
  · rw [procesar_submit] at h
    by_cases he : (errores_de s f).isEmpty = true
    · rw [if_pos he] at h
      simp only [Option.some.injEq] at h
      rw [← h]
      exact ⟨rfl, quantize2_two_decimals f.monto⟩
    · rw [if_neg he] at h
      simp at h
  · rcases db with e | u
    · simp [insertar_gasto] at h
    · simp only [insertar_gasto, Option.some.injEq] at h
      rw [← h]

/-- Witness for C9: a validated submission with amount 2 stores
quantize2 2, and 3.21 is preserved exactly. -/
theorem C9_monto_quantized_witness :
    ((⟨0, "c", quantize2 2, "n", "A-1", "Obra A", "p", "Efectivo"⟩ : DatosGasto).monto =
        quantize2 ((⟨0, "c", 2, "p", "n", "Efectivo", "A-1", "Obra A"⟩ : GastoForm).monto) ∧
      ∃ z : ℤ, (⟨0, "c", quantize2 2, "n", "A-1", "Obra A", "p", "Efectivo"⟩ :
        DatosGasto).monto = (z : ℚ) / 100) ∧
    quantize2 (321 / 100 : ℚ) = 321 / 100 := by
  constructor
  · apply C9_monto_quantized.1 ⟨true, none, false, none, false, none⟩
      ⟨0, "c", 2, "p", "n", "Efectivo", "A-1", "Obra A"⟩
    have hq : quantize2 (2 : ℚ) = 2 := quantize2_eq_self (z := 200) (by norm_num)
    have hne : ¬ quantize2 (2 : ℚ) ≤ 0 := by
      rw [hq]
      norm_num
    have hisE : (errores_de ⟨true, none, false, none, false, none⟩
        ⟨0, "c", 2, "p", "n", "Efectivo", "A-1", "Obra A"⟩).isEmpty = true := by
      rw [errores_de, if_neg hne, if_neg (by decide), if_neg (by decide), if_neg (by decide),
        if_neg (by decide)]
      rfl
    rw [procesar_submit, if_pos hisE]
    rfl
  · exact C9_monto_quantized.2.2 (321 / 100) 321 (by norm_num)

/-- C6 (amended): the cargar_obras query returns the project names ordered
alphabetically (duplicates preserved, the SQL has no DISTINCT), its result
is cached at the time of the read, a second read less than 60 seconds
later returns the cached list without a storage query, and a read 60 or
more seconds later issues a new one. -/
theorem C6_obras_query_cached :
    (∀ table : List String, List.Sorted (· ≤ ·) (obras_query table)) ∧
    (∀ (db db2 : Except String (List String)) (s s2 : SessionState) (t1 t2 : Nat),
      t2 < t1 + CACHE_TTL →
      (cargar_obras_cached db s ⟨none⟩ t1).2.2.2 = true ∧
      (cargar_obras_cached db2 s2 (cargar_obras_cached db s ⟨none⟩ t1).2.2.1 t2).2.2.2 =
        false ∧
      (cargar_obras_cached db2 s2 (cargar_obras_cached db s ⟨none⟩ t1).2.2.1 t2).1 =
        (cargar_obras_cached db s ⟨none⟩ t1).1) ∧
    (∀ (db db2 : Except String (List String)) (s s2 : SessionState) (t1 t2 : Nat),
      t1 + CACHE_TTL ≤ t2 →
      (cargar_obras_cached db2 s2 (cargar_obras_cached db s ⟨none⟩ t1).2.2.1 t2).2.2.2 =
        true) := by
  refine ⟨fun table => List.sorted_insertionSort _ _,
    fun db db2 s s2 t1 t2 h => ?_, fun db db2 s s2 t1 t2 h => ?_⟩
  · have hlt : t2 - t1 < CACHE_TTL := by
      simp only [CACHE_TTL] at h ⊢
      omega
    refine ⟨rfl, ?_, ?_⟩ <;> simp [cargar_obras_cached, hlt]
  · have hge : ¬ t2 - t1 < CACHE_TTL := by
      simp only [CACHE_TTL] at h ⊢
      omega
    simp [cargar_obras_cached, hge]

/-- Counterexample for C6 as stated: the query has no DISTINCT, so a table
holding the same project name twice yields a result list with duplicates,
not a list of distinct names. -/
theorem C6_distinct_counterexample :
    obras_query ["Obra A", "Obra A"] = ["Obra A", "Obra A"] ∧
    ¬ (obras_query ["Obra A", "Obra A"]).Nodup := by
  have h : obras_query ["Obra A", "Obra A"] = ["Obra A", "Obra A"] := by
    simp [obras_query, List.insertionSort, List.orderedInsert]
  refine ⟨h, ?_⟩
  rw [h]
  simp

/-- Witness for C6: reads at seconds 0, 59 and 61 against a two-row
table. -/
theorem C6_obras_query_cached_witness :
    ((cargar_obras_cached (.ok ["b", "a"]) ⟨true, none, false, none, false, none⟩
        ⟨none⟩ 0).2.2.2 = true ∧
      (cargar_obras_cached (.ok ["b", "a"]) ⟨true, none, false, none, false, none⟩
        (cargar_obras_cached (.ok ["b", "a"]) ⟨true, none, false, none, false, none⟩
          ⟨none⟩ 0).2.2.1 59).2.2.2 = false ∧
      (cargar_obras_cached (.ok ["b", "a"]) ⟨true, none, false, none, false, none⟩
        (cargar_obras_cached (.ok ["b", "a"]) ⟨true, none, false, none, false, none⟩
          ⟨none⟩ 0).2.2.1 59).1 =
        (cargar_obras_cached (.ok ["b", "a"]) ⟨true, none, false, none, false, none⟩
          ⟨none⟩ 0).1) ∧
    (cargar_obras_cached (.ok ["b", "a"]) ⟨true, none, false, none, false, none⟩
      (cargar_obras_cached (.ok ["b", "a"]) ⟨true, none, false, none, false, none⟩
        ⟨none⟩ 0).2.2.1 61).2.2.2 = true :=
  ⟨C6_obras_query_cached.2.1 _ _ _ _ 0 59 (by norm_num [CACHE_TTL]),
   C6_obras_query_cached.2.2 _ _ _ _ 0 61 (by norm_num [CACHE_TTL])⟩

/-- C10: add_keepalives_to_dsn is idempotent, returns any input without
"://" unchanged, and never overwrites a query parameter already present:
a present parameter keeps its (last) value in the output query string. -/
theorem C10_add_keepalives_properties :
    (∀ dsn : List Char,
      add_keepalives_to_dsn (add_keepalives_to_dsn dsn) = add_keepalives_to_dsn dsn) ∧
    (∀ dsn : List Char, hasSub schemeSep dsn = false → add_keepalives_to_dsn dsn = dsn) ∧
    (∀ (dsn k : List Char) (vs : List (List Char)), hasSub schemeSep dsn = true →
      lookupQ (parse_qs (queryOf dsn)) k = some vs →
      lookupQ (parse_qs (queryOf (add_keepalives_to_dsn dsn))) k = some [lastVal vs]) := by
  refine ⟨fun dsn => ?_, fun dsn h => ?_, fun dsn k vs h hk => ?_⟩
  · by_cases h : hasSub schemeSep dsn = true
    · rw [add_keepalives_eq_enrich h]
      by_cases h2 : hasSub schemeSep (enrich dsn) = true
      · rw [add_keepalives_eq_enrich h2]
        exact enrich_enrich dsn
      · have h2f : hasSub schemeSep (enrich dsn) = false := by simpa using h2
        rw [add_keepalives_to_dsn, if_pos (by simp [h2f])]
    · have hf : hasSub schemeSep dsn = false := by simpa using h
      have e1 : add_keepalives_to_dsn dsn = dsn := by
        rw [add_keepalives_to_dsn, if_pos (by simp [hf])]
      rw [e1, e1]
  · rw [add_keepalives_to_dsn, if_pos (by simp [h])]
  · rw [add_keepalives_eq_enrich h, queryOf_enrich, parse_qs_newQueryOf,
      lookupQ_map_lastVal, lookupQ_setDefaults_of_some hk]
    rfl

/-- Witness for C10: a DSN without "://" is returned unchanged, and a DSN
already carrying keepalives=0 keeps that value after enrichment. -/
theorem C10_add_keepalives_properties_witness :
    add_keepalives_to_dsn "postgres".toList = "postgres".toList ∧
    lookupQ (parse_qs (queryOf (add_keepalives_to_dsn
        "postgresql://h?keepalives=0".toList))) "keepalives".toList =
      some [lastVal [['0']]] :=
  ⟨C10_add_keepalives_properties.2.1 _ (by decide),
   C10_add_keepalives_properties.2.2 "postgresql://h?keepalives=0".toList
     "keepalives".toList [['0']] (by decide) (by decide)⟩
